import Mathlib

/-!
Verification of the NodeDirWalker repository (TypeScript sources
`src/DirWalker.ts` and `src/PatternMatcher.ts`) against its
natural-language specification.

The filesystem is the capability interface of the spec
(`listDirectory`, `inspect`, `resolveAbsolute`, `relativeTo`): a
directory tree is embedded as an inductive `FSNode`, where each node
records the outcome of `fs.stat` (the two flags `isDirectory` and
`isSymbolicLink`, or a rejection) and, for nodes the walker lists, the
outcome of `fs.readdir` (either an error or the child nodes).  Node's
`path.resolve(base, name)` and `path.relative(base, p)` are embedded
for the only case the walker uses them in: an absolute normalized
`base` and a plain entry name coming from `readdir`.

Callbacks are embedded by their observable outcome: the file callback
returns `none` on success or `some e` when it throws the error `e`;
the optional error callback likewise.  A traversal produces a
`WalkOut`: the final counter, the ordered trace of observable events
(file-callback invocations, error-callback invocations, default
console-error lines), and `exn`, which is `some e` exactly when an
exception `e` escapes the call (the promise rejects).  Debug logging
(`console.debug`, only active when the `debug` flag is set) is not
modelled: it is not part of the functional contract.
-/

/-- Result of a successful `fs.stat`: the two classification flags the
walker reads. -/
structure StatInfo where
  isDirectory : Bool
  isSymbolicLink : Bool
deriving Repr, DecidableEq

/-- A filesystem entry as the walker can observe it.
`statError name e` is an entry whose `fs.stat` rejects with error `e`.
`entry name st listErr children` is an entry whose `fs.stat` resolves
with flags `st`; if the walker lists it as a directory, `fs.readdir`
rejects with `e` when `listErr = some e` and otherwise resolves to
`children` (in listing order). -/
inductive FSNode where
  | statError (name : String) (e : String)
  | entry (name : String) (st : StatInfo) (listErr : Option String) (children : List FSNode)
deriving Repr

/-- The entry name, as returned by `fs.readdir` of the parent. -/
def FSNode.name : FSNode → String
  | .statError n _ => n
  | .entry n _ _ _ => n

/-- Node's `path.resolve(base, name)` for an absolute normalized `base`
and a plain entry name: the concatenation with the separator. -/
def pathResolve (base name : String) : String :=
  base ++ "/" ++ name

/-- Node's `path.relative(base, p)` for the case the walker uses: `p`
was produced from `base` by appending separators and entry names, so
the relative path is `p` with the prefix `base ++ "/"` removed. -/
def pathRelative (base p : String) : String :=
  p.drop (base.length + 1)

/-- The `WalkSettings` object of `DirWalker.ts`: two optional arrays of
patterns.  A TypeScript `RegExp` is embedded by its total test
function on strings; `none` embeds an absent (`undefined`) field. -/
structure WalkSettings where
  excludeDirs : Option (List (String → Bool))
  excludeExt : Option (List (String → Bool))

/-- Modelled from the declaration of the external dependency
`@nojaja/greputil` (`src/types/@nojaja__greputil.d.ts`), which the
repository consumes but whose implementation is not part of it:
`RegExpArray.test(str)` returns true iff any of the constructed
patterns matches `str`. -/
def regExpArrayTest (patterns : List (String → Bool)) (s : String) : Bool :=
  patterns.any (fun p => p s)

/-- The exclusion test of `DirWalker._processDirectory`: a matcher is
built and consulted only when `settings.excludeDirs` is present
(truthy) and nonempty. -/
def dirExcluded (settings : WalkSettings) (filePath : String) : Bool :=
  match settings.excludeDirs with
  | some pats => if pats.length > 0 then regExpArrayTest pats filePath else false
  | none => false

/-- The exclusion test of `DirWalker._processFile`: a matcher is built
and consulted only when `settings.excludeExt` is present (truthy) and
nonempty. -/
def extExcluded (settings : WalkSettings) (filePath : String) : Bool :=
  match settings.excludeExt with
  | some pats => if pats.length > 0 then regExpArrayTest pats filePath else false
  | none => false

/-- Outcome of the caller-supplied file callback on a given relative
path and settings: `none` when it resolves, `some e` when it raises or
rejects with error `e`. -/
abbrev FileCb := String → WalkSettings → Option String

/-- The optional error callback: absent, or a function whose outcome on
an error value is `none` (returns) or `some e` (raises `e`). -/
abbrev ErrCb := Option (String → Option String)

/-- Observable events of one traversal, in order of occurrence. -/
inductive Event where
  /-- The file callback was invoked for absolute path `filePath` with
  argument `relPath`; `threw = some e` when the callback failed. -/
  | fileCb (filePath relPath : String) (threw : Option String)
  /-- The error callback was invoked with the error value `error`;
  `threw = some e` when the callback itself raised `e`. -/
  | errCb (error : String) (threw : Option String)
  /-- A line was written to the default `console.error` channel. -/
  | consoleError (line : String)
deriving Repr, DecidableEq

/-- Result of (a part of) a traversal: counter increments made, events
emitted, and the exception escaping the call, if any. -/
structure WalkOut where
  count : Nat
  events : List Event
  exn : Option String
deriving Repr, DecidableEq

/-- `DirWalker._handleError`: with a callback, invoke it on the error
object itself (an exception it raises propagates to the caller);
without one, print the context message and the error message on
`console.error`.  Returns the emitted events and the escaping
exception, if any. -/
def handleError (message error : String) (ecb : ErrCb) : List Event × Option String :=
  match ecb with
  | some f => ([Event.errCb error (f error)], f error)
  | none => ([Event.consoleError (message ++ ": " ++ error)], none)

/-- `DirWalker._processFile`: test the file path against `excludeExt`
and stop if it matches; otherwise increment the counter, compute the
path relative to `basePath`, and invoke the file callback, routing a
callback failure through `_handleError`. -/
def processFile (settings : WalkSettings) (cb : FileCb) (ecb : ErrCb)
    (basePath filePath : String) : WalkOut :=
  if extExcluded settings filePath then ⟨0, [], none⟩
  else
    let relativePath := pathRelative basePath filePath
    match cb relativePath settings with
    | none => ⟨1, [Event.fileCb filePath relativePath none], none⟩
    | some e =>
        let he := handleError ("ファイル処理エラー: " ++ filePath) e ecb
        ⟨1, Event.fileCb filePath relativePath (some e) :: he.1, he.2⟩

mutual

/-- The body of `DirWalker._walk`, given the outcome of
`fs.readdir(targetPath)` (`listErr`/`children`): on a listing error,
route it through `_handleError`; otherwise process each entry in
order, and route an exception escaping the entry loop (an inner
`_handleError` that raised) through the outer catch, whose context
message is the directory-read one. -/
def walkDirBody (settings : WalkSettings) (cb : FileCb) (ecb : ErrCb)
    (basePath targetPath : String) (listErr : Option String)
    (children : List FSNode) : WalkOut :=
  match listErr with
  | some e =>
      let he := handleError ("ディレクトリ読み取りエラー: " ++ targetPath) e ecb
      ⟨0, he.1, he.2⟩
  | none =>
      let r := walkEntries settings cb ecb basePath targetPath children
      match r.exn with
      | none => r
      | some ex =>
          let he := handleError ("ディレクトリ読み取りエラー: " ++ targetPath) ex ecb
          ⟨r.count, r.events ++ he.1, he.2⟩

/-- The entry loop of `DirWalker._walk`, with the body of
`_processEntry` (and of `_processDirectory`) written in place so the
recursion is structural on the tree; `walkEntries_cons` below
re-expresses one iteration through `processEntry`.  Each entry name is
resolved against the current directory; an exception escaping the
entry (a `stat` rejection, or an error callback that raised inside the
entry) is caught and routed through `_handleError`, and only an
exception raised by that `_handleError` itself aborts the loop. -/
def walkEntries (settings : WalkSettings) (cb : FileCb) (ecb : ErrCb)
    (basePath targetPath : String) : List FSNode → WalkOut
  | [] => ⟨0, [], none⟩
  | n :: rest =>
      let filePath := pathResolve targetPath n.name
      let r : WalkOut :=
        match n with
        | .statError _ e => ⟨0, [], some e⟩
        | .entry _ st listErr children =>
            if st.isSymbolicLink then ⟨0, [], none⟩
            else if st.isDirectory then
              if dirExcluded settings filePath then ⟨0, [], none⟩
              else walkDirBody settings cb ecb basePath filePath listErr children
            else processFile settings cb ecb basePath filePath
      match r.exn with
      | none =>
          let rr := walkEntries settings cb ecb basePath targetPath rest
          ⟨r.count + rr.count, r.events ++ rr.events, rr.exn⟩
      | some ex =>
          let he := handleError ("ファイル処理エラー: " ++ filePath) ex ecb
          match he.2 with
          | none =>
              let rr := walkEntries settings cb ecb basePath targetPath rest
              ⟨r.count + rr.count, (r.events ++ he.1) ++ rr.events, rr.exn⟩
          | some ex2 => ⟨r.count, r.events ++ he.1, some ex2⟩

end

/-- `DirWalker._processDirectory`: skip when the directory path matches
`excludeDirs`, otherwise recurse via `_walk` with the same base
path. -/
def processDirectory (settings : WalkSettings) (cb : FileCb) (ecb : ErrCb)
    (basePath filePath : String) (listErr : Option String)
    (children : List FSNode) : WalkOut :=
  if dirExcluded settings filePath then ⟨0, [], none⟩
  else walkDirBody settings cb ecb basePath filePath listErr children

/-- `DirWalker._processEntry` on the resolved path of the node: a
`stat` rejection propagates to the caller; a symbolic link is skipped
before any other check; a directory goes to `_processDirectory` and
anything else to `_processFile`. -/
def processEntry (settings : WalkSettings) (cb : FileCb) (ecb : ErrCb)
    (basePath targetPath : String) : FSNode → WalkOut
  | .statError _ e => ⟨0, [], some e⟩
  | .entry name st listErr children =>
      if st.isSymbolicLink then ⟨0, [], none⟩
      else if st.isDirectory then
        processDirectory settings cb ecb basePath (pathResolve targetPath name) listErr children
      else processFile settings cb ecb basePath (pathResolve targetPath name)

/-- `DirWalker.walk`: reset the counter, shallow-copy the settings, and
run `_walk` with the root as both target and base path.  The argument
`rootListing` is the outcome of `fs.readdir(targetPath)` at the root:
`Except.error e` when the root cannot be listed. -/
def walk (targetPath : String) (settings : WalkSettings) (cb : FileCb) (ecb : ErrCb)
    (rootListing : Except String (List FSNode)) : WalkOut :=
  match rootListing with
  | .error e => walkDirBody settings cb ecb targetPath targetPath (some e) []
  | .ok children => walkDirBody settings cb ecb targetPath targetPath none children

/-!
The `PatternMatcher` class of `src/PatternMatcher.ts`.  A JavaScript
pattern value, as `matchEx` treats it, is embedded by the truthiness
of `pattern && pattern.test` (the guard evaluated without calling the
pattern) and by the outcome of `pattern.test(text)`, which either
returns a boolean or raises.
-/

/-- One element of the `patterns` array given to `PatternMatcher`:
`hasTest` is the truthiness of `pattern && pattern.test`, and `test`
is the evaluation `pattern.test(text)`, returning a boolean or raising
an error. -/
structure PMPattern where
  hasTest : Bool
  test : String → Except String Bool

/-- The loop inside `PatternMatcher.matchEx`: patterns whose guard
`pattern && pattern.test` is falsy are passed over; otherwise
`pattern.test(text)` is evaluated, and an error it raises propagates
out of the loop. -/
def matchExLoop (text : String) : List PMPattern → Except String (Option PMPattern)
  | [] => Except.ok none
  | p :: ps =>
      if p.hasTest then
        match p.test text with
        | Except.error e => Except.error e
        | Except.ok true => Except.ok (some p)
        | Except.ok false => matchExLoop text ps
      else matchExLoop text ps

namespace PatternMatcher

/-- `PatternMatcher.matchEx`: `null` for an absent array; otherwise the
loop above runs inside one try/catch that spans the whole loop, and
any error caught there yields `null`. -/
def matchEx (text : String) (patterns : Option (List PMPattern)) : Option PMPattern :=
  match patterns with
  | none => none
  | some ps =>
      match matchExLoop text ps with
      | Except.ok r => r
      | Except.error _ => none

/-- `PatternMatcher.match` (named `matchesAny` here because `match` is
a reserved word in Lean): true iff `matchEx` is not `null`. -/
def matchesAny (text : String) (patterns : Option (List PMPattern)) : Bool :=
  (matchEx text patterns).isSome

end PatternMatcher

/-!
Spec-side definitions and trace classifiers used to state the claims.
-/

mutual

/-- Written from the spec for the refinement claim about counting: the
number of files at any depth of a node (whose resolved path is built
from `targetPath`) that are not matched by the `excludeExt` patterns.
Directories contribute their descendants; the tree is assumed to be
made of regular files and directories only (`regularNode`). -/
def specFileCount (exclExt : List (String → Bool)) (targetPath : String) : FSNode → Nat
  | .statError _ _ => 0
  | .entry name st _ children =>
      if st.isDirectory then
        specFileCountList exclExt (pathResolve targetPath name) children
      else if regExpArrayTest exclExt (pathResolve targetPath name) then 0 else 1

/-- The sum of `specFileCount` over a listing. -/
def specFileCountList (exclExt : List (String → Bool)) (targetPath : String) :
    List FSNode → Nat
  | [] => 0
  | n :: rest => specFileCount exclExt targetPath n + specFileCountList exclExt targetPath rest

end

mutual

/-- A tree made only of regular files and directories: `stat` succeeds
everywhere, nothing is a symbolic link, and listing a directory
succeeds.  Fields the walker never reads (the listing of a non-
directory) are unconstrained. -/
def regularNode : FSNode → Bool
  | .statError _ _ => false
  | .entry _ st listErr children =>
      !st.isSymbolicLink && (!st.isDirectory || (listErr.isNone && regularList children))

/-- `regularNode` at every node of a listing. -/
def regularList : List FSNode → Bool
  | [] => true
  | n :: rest => regularNode n && regularList rest

end

/-- True for the events that report an error, whether through the
error callback or through the default console channel. -/
def Event.isErrorReport : Event → Bool
  | .errCb _ _ => true
  | .consoleError _ => true
  | .fileCb _ _ _ => false

/-- True for an invocation of the error callback. -/
def Event.isErrCbEvent : Event → Bool
  | .errCb _ _ => true
  | _ => false

/-- True for a line on the default console channel. -/
def Event.isConsoleEvent : Event → Bool
  | .consoleError _ => true
  | _ => false

/-- True for an invocation of the file callback. -/
def Event.isFileCbEvent : Event → Bool
  | .fileCb _ _ _ => true
  | _ => false

/-- A file-callback event whose relative path is the one computed from
`basePath`; other events satisfy this vacuously. -/
def Event.relativeToBase (basePath : String) : Event → Bool
  | .fileCb fp rp _ => rp == pathRelative basePath fp
  | _ => true

/-- An error callback that never raises; an absent callback is benign,
and so is the default console channel. -/
def benignErrCb : ErrCb → Prop
  | none => True
  | some f => ∀ e, f e = none

/-- A file callback that always succeeds, used to instantiate
universally quantified statements. -/
def okFileCb : FileCb := fun _ _ => none

/-!
Shared lemmas about the embedded walker.
-/

theorem handleError_exn_benign (message error : String) (ecb : ErrCb)
    (hben : benignErrCb ecb) : (handleError message error ecb).2 = none := by
  cases ecb with
  | none => rfl
  | some f => simpa [handleError] using hben error

theorem extExcluded_some (d : Option (List (String → Bool))) (pats : List (String → Bool))
    (fp : String) : extExcluded ⟨d, some pats⟩ fp = regExpArrayTest pats fp := by
  cases pats with
  | nil => simp [extExcluded, regExpArrayTest]
  | cons p ps => simp [extExcluded]

theorem dirExcluded_none (e : Option (List (String → Bool))) (fp : String) :
    dirExcluded ⟨none, e⟩ fp = false := rfl

/-- One iteration of the entry loop of `_walk`, re-expressed through
`processEntry`: the inlined body in `walkEntries` is exactly
`processEntry` on the head node. -/
theorem walkEntries_cons (settings : WalkSettings) (cb : FileCb) (ecb : ErrCb)
    (basePath targetPath : String) (n : FSNode) (rest : List FSNode) :
    walkEntries settings cb ecb basePath targetPath (n :: rest) =
      let filePath := pathResolve targetPath n.name
      let r := processEntry settings cb ecb basePath targetPath n
      match r.exn with
      | none =>
          let rr := walkEntries settings cb ecb basePath targetPath rest
          ⟨r.count + rr.count, r.events ++ rr.events, rr.exn⟩
      | some ex =>
          let he := handleError ("ファイル処理エラー: " ++ filePath) ex ecb
          match he.2 with
          | none =>
              let rr := walkEntries settings cb ecb basePath targetPath rest
              ⟨r.count + rr.count, (r.events ++ he.1) ++ rr.events, rr.exn⟩
          | some ex2 => ⟨r.count, r.events ++ he.1, some ex2⟩ := by
  cases n with
  | statError name e => simp [walkEntries, processEntry]
  | entry name st listErr children =>
      simp only [walkEntries, processEntry, processDirectory, FSNode.name]

theorem processFile_exn_benign (settings : WalkSettings) (cb : FileCb) (ecb : ErrCb)
    (basePath filePath : String) (hben : benignErrCb ecb) :
    (processFile settings cb ecb basePath filePath).exn = none := by
  unfold processFile
  split
  · rfl
  · cases hc : cb (pathRelative basePath filePath) settings with
    | none => simp [hc]
    | some e =>
        simp only [hc]
        exact handleError_exn_benign _ _ _ hben

theorem processFile_events_all (settings : WalkSettings) (cb : FileCb) (ecb : ErrCb)
    (basePath filePath : String) (P : Event → Bool)
    (hHE : ∀ msg e, ((handleError msg e ecb).1).all P = true)
    (hF : ∀ fp r, P (Event.fileCb fp (pathRelative basePath fp) r) = true) :
    ((processFile settings cb ecb basePath filePath).events).all P = true := by
  unfold processFile
  split
  · rfl
  · cases hc : cb (pathRelative basePath filePath) settings with
    | none => simpa [hc] using hF filePath none
    | some e =>
        simp only [hc, List.all_cons, Bool.and_eq_true]
        exact ⟨hF filePath (some e), hHE ("ファイル処理エラー: " ++ filePath) e⟩

mutual

theorem walkDirBody_events_all (settings : WalkSettings) (cb : FileCb) (ecb : ErrCb)
    (basePath : String) (P : Event → Bool)
    (hHE : ∀ msg e, ((handleError msg e ecb).1).all P = true)
    (hF : ∀ fp r, P (Event.fileCb fp (pathRelative basePath fp) r) = true)
    (targetPath : String) (listErr : Option String) (children : List FSNode) :
    ((walkDirBody settings cb ecb basePath targetPath listErr children).events).all P
      = true := by
  cases listErr with
  | some e => simpa [walkDirBody] using hHE ("ディレクトリ読み取りエラー: " ++ targetPath) e
  | none =>
      have ih := walkEntries_events_all settings cb ecb basePath P hHE hF targetPath children
      simp only [walkDirBody]
      split
      · exact ih
      · rename_i ex _
        simpa using And.intro ih (hHE ("ディレクトリ読み取りエラー: " ++ targetPath) ex)

theorem walkEntries_events_all (settings : WalkSettings) (cb : FileCb) (ecb : ErrCb)
    (basePath : String) (P : Event → Bool)
    (hHE : ∀ msg e, ((handleError msg e ecb).1).all P = true)
    (hF : ∀ fp r, P (Event.fileCb fp (pathRelative basePath fp) r) = true)
    (targetPath : String) (l : List FSNode) :
    ((walkEntries settings cb ecb basePath targetPath l).events).all P = true := by
  match l with
  | [] => simp [walkEntries]
  | n :: rest =>
      have ihrest := walkEntries_events_all settings cb ecb basePath P hHE hF targetPath rest
      have hr : ((processEntry settings cb ecb basePath targetPath n).events).all P
          = true := by
        cases n with
        | statError name e => rfl
        | entry name st listErr children =>
            by_cases hs : st.isSymbolicLink
            · simp [processEntry, hs]
            · by_cases hd : st.isDirectory
              · by_cases hx : dirExcluded settings (pathResolve targetPath name)
                · simp [processEntry, processDirectory, hs, hd, hx]
                · simp only [processEntry, processDirectory, hs, hd, hx,
                    Bool.false_eq_true, if_false, if_true]
                  exact walkDirBody_events_all settings cb ecb basePath P hHE hF _
                    listErr children
              · simp only [processEntry, hs, hd, Bool.false_eq_true, if_false]
                exact processFile_events_all settings cb ecb basePath _ P hHE hF
      rw [walkEntries_cons]
      cases hex : (processEntry settings cb ecb basePath targetPath n).exn with
      | none =>
          simp only [hex, List.all_append, Bool.and_eq_true]
          exact ⟨hr, ihrest⟩
      | some ex =>
          simp only [hex]
          cases hhe : (handleError ("ファイル処理エラー: " ++ pathResolve targetPath n.name)
              ex ecb).2 with
          | none =>
              simp only [hhe, List.all_append, Bool.and_eq_true]
              exact ⟨⟨hr, hHE _ ex⟩, ihrest⟩
          | some ex2 =>
              simp only [hhe, List.all_append, Bool.and_eq_true]
              exact ⟨hr, hHE _ ex⟩

end

mutual

theorem walkDirBody_exn_benign (settings : WalkSettings) (cb : FileCb) (ecb : ErrCb)
    (basePath : String) (hben : benignErrCb ecb) (targetPath : String)
    (listErr : Option String) (children : List FSNode) :
    (walkDirBody settings cb ecb basePath targetPath listErr children).exn = none := by
  cases listErr with
  | some e =>
      simp only [walkDirBody]
      exact handleError_exn_benign _ _ _ hben
  | none =>
      have ih := walkEntries_exn_benign settings cb ecb basePath hben targetPath children
      simp only [walkDirBody]
      split
      · exact ih
      · exact handleError_exn_benign _ _ _ hben

theorem walkEntries_exn_benign (settings : WalkSettings) (cb : FileCb) (ecb : ErrCb)
    (basePath : String) (hben : benignErrCb ecb) (targetPath : String)
    (l : List FSNode) :
    (walkEntries settings cb ecb basePath targetPath l).exn = none := by
  match l with
  | [] => simp [walkEntries]
  | n :: rest =>
      have ihrest := walkEntries_exn_benign settings cb ecb basePath hben targetPath rest
      rw [walkEntries_cons]
      cases hex : (processEntry settings cb ecb basePath targetPath n).exn with
      | none => simpa only [hex] using ihrest
      | some ex =>
          simp only [hex]
          have hhe := handleError_exn_benign
            ("ファイル処理エラー: " ++ pathResolve targetPath n.name) ex ecb hben
          simpa only [hhe] using ihrest

end

mutual

theorem walkDirBody_count_spec (exclExt : List (String → Bool)) (cb : FileCb) (ecb : ErrCb)
    (basePath : String) (hcb : ∀ p s, cb p s = none) (targetPath : String)
    (children : List FSNode) (hreg : regularList children = true) :
    (walkDirBody ⟨none, some exclExt⟩ cb ecb basePath targetPath none children).count
        = specFileCountList exclExt targetPath children ∧
      (walkDirBody ⟨none, some exclExt⟩ cb ecb basePath targetPath none children).exn
        = none := by
  have ih := walkEntries_count_spec exclExt cb ecb basePath hcb targetPath children hreg
  simp only [walkDirBody]
  split
  · exact ih
  · rename_i ex hex
    exact absurd (ih.2.symm.trans hex) (by simp)

theorem walkEntries_count_spec (exclExt : List (String → Bool)) (cb : FileCb) (ecb : ErrCb)
    (basePath : String) (hcb : ∀ p s, cb p s = none) (targetPath : String)
    (l : List FSNode) (hreg : regularList l = true) :
    (walkEntries ⟨none, some exclExt⟩ cb ecb basePath targetPath l).count
        = specFileCountList exclExt targetPath l ∧
      (walkEntries ⟨none, some exclExt⟩ cb ecb basePath targetPath l).exn = none := by
  match l with
  | [] => simp [walkEntries, specFileCountList]
  | n :: rest =>
      rw [regularList, Bool.and_eq_true] at hreg
      have ihrest := walkEntries_count_spec exclExt cb ecb basePath hcb targetPath rest hreg.2
      have hr : (processEntry ⟨none, some exclExt⟩ cb ecb basePath targetPath n).count
            = specFileCount exclExt targetPath n ∧
          (processEntry ⟨none, some exclExt⟩ cb ecb basePath targetPath n).exn = none := by
        cases n with
        | statError name e => simp [regularNode] at hreg
        | entry name st listErr children =>
            have hn := hreg.1
            rw [regularNode, Bool.and_eq_true, Bool.not_eq_eq_eq_not, Bool.not_true] at hn
            obtain ⟨hs, hrest⟩ := hn
            by_cases hd : st.isDirectory
            · have hchild : listErr.isNone = true ∧ regularList children = true := by
                rcases Bool.or_eq_true _ _ |>.mp hrest with h | h
                · rw [Bool.not_eq_eq_eq_not, Bool.not_true] at h
                  exact absurd hd (by simp [h])
                · exact Bool.and_eq_true _ _ |>.mp h
              have hle : listErr = none := Option.isNone_iff_eq_none.mp hchild.1
              subst hle
              have ihdir := walkDirBody_count_spec exclExt cb ecb basePath hcb
                (pathResolve targetPath name) children hchild.2
              simp only [processEntry, processDirectory, hs, hd, dirExcluded_none,
                Bool.false_eq_true, if_false, if_true, specFileCount]
              exact ihdir
            · simp only [processEntry, hs, hd, Bool.false_eq_true, if_false,
                specFileCount, processFile, extExcluded_some]
              by_cases hx : regExpArrayTest exclExt (pathResolve targetPath name)
              · simp [hx]
              · simp [hx, hcb]
      rw [walkEntries_cons]
      simp only [hr.2, specFileCountList]
      exact ⟨by rw [hr.1, ihrest.1], ihrest.2⟩

end

theorem matchExLoop_error_of_prefix (text : String) (p : PMPattern) (e : String)
    (hp : p.hasTest = true) (he : p.test text = Except.error e) :
    ∀ pre : List PMPattern,
      (∀ q ∈ pre, q.hasTest = false ∨ q.test text = Except.ok false) →
      ∀ post, matchExLoop text (pre ++ p :: post) = Except.error e := by
  intro pre
  induction pre with
  | nil =>
      intro _ post
      simp [matchExLoop, hp, he]
  | cons q qs ih =>
      intro hpre post
      have hq := hpre q (List.mem_cons_self q qs)
      have hqs : ∀ r ∈ qs, r.hasTest = false ∨ r.test text = Except.ok false :=
        fun r hr => hpre r (List.mem_cons_of_mem q hr)
      rcases hq with h | h
      · simp [matchExLoop, h, ih hqs post]
      · by_cases ht : q.hasTest
        · simp [matchExLoop, ht, h, ih hqs post]
        · simp [matchExLoop, ht, ih hqs post]

/-!
Concrete objects used to instantiate the claims.
-/

/-- A pattern whose guard `pattern && pattern.test` is truthy but whose
evaluation raises, such as a truthy object whose `test` member is not
callable. -/
def raisingPattern : PMPattern := ⟨true, fun _ => Except.error "bad pattern"⟩

/-- A well-formed pattern matching every text. -/
def matchAllPattern : PMPattern := ⟨true, fun _ => Except.ok true⟩

/-- A falsy array element, such as the `null` the unit tests pass:
the guard `pattern && pattern.test` is falsy, nothing is evaluated. -/
def nullPattern : PMPattern := ⟨false, fun _ => Except.ok false⟩

/-- An error callback that always raises. -/
def throwingErrCb : String → Option String := fun _ => some "callback blew up"

/-- A file callback failing exactly on the relative path `b.txt`. -/
def failOnB : FileCb := fun rp _ => if rp == "b.txt" then some "handler failed" else none

/-!
The claims.
-/

/-- Claim C1: an entry whose inspection classifies it as a symbolic
link is skipped unconditionally by `_processEntry` — no file callback,
no recursion, no exclusion matching, no count, no error — and the
traversal of a root holding a symbolic link (even one whose target is
the root itself) next to one regular file returns 1 and only invokes
the handler on that file.  In the embedding the symlink node is given
children that would be counted if the walker descended; the result
shows they are not visited. -/
theorem symlink_entries_skipped :
    (∀ (settings : WalkSettings) (cb : FileCb) (ecb : ErrCb)
        (basePath targetPath name : String) (st : StatInfo)
        (listErr : Option String) (children : List FSNode),
        st.isSymbolicLink = true →
        processEntry settings cb ecb basePath targetPath
          (FSNode.entry name st listErr children) = ⟨0, [], none⟩) ∧
    walk "/r" ⟨none, none⟩ okFileCb none
        (Except.ok [FSNode.entry "link" ⟨true, true⟩ none
            [FSNode.entry "ghost.txt" ⟨false, false⟩ none []],
          FSNode.entry "e.txt" ⟨false, false⟩ none []]) =
      ⟨1, [Event.fileCb "/r/e.txt" "e.txt" none], none⟩ := by
  constructor
  · intro settings cb ecb basePath targetPath name st listErr children hs
    simp [processEntry, hs]
  · simp only [walk, walkDirBody, walkEntries, processFile, extExcluded, okFileCb,
      FSNode.name, pathResolve, pathRelative]
    decide

theorem symlink_entries_skipped_witness :
    processEntry ⟨none, none⟩ okFileCb none "/r" "/r"
        (FSNode.entry "link" ⟨true, true⟩ none []) = ⟨0, [], none⟩ :=
  symlink_entries_skipped.1 ⟨none, none⟩ okFileCb none "/r" "/r" "link" ⟨true, true⟩
    none [] rfl

/-- Claim C2: over a tree of regular files and directories in which
every `stat` and every listing succeeds, and with a handler that does
not fail, `walk` called with an `excludeExt` configuration returns
exactly the number of files, at any depth, whose resolved path no
`excludeExt` pattern matches (`specFileCountList` is written from the
spec wording). -/
theorem walk_count_matches_spec (exclExt : List (String → Bool)) (root : String)
    (l : List FSNode) (cb : FileCb) (ecb : ErrCb)
    (hreg : regularList l = true) (hcb : ∀ p s, cb p s = none) :
    (walk root ⟨none, some exclExt⟩ cb ecb (Except.ok l)).count
      = specFileCountList exclExt root l := by
  simpa [walk] using (walkDirBody_count_spec exclExt cb ecb root hcb root l hreg).1

theorem walk_count_matches_spec_witness :
    (walk "/r" ⟨none, some [fun s => s.endsWith ".log"]⟩ okFileCb none
        (Except.ok [FSNode.entry "sub" ⟨true, false⟩ none
            [FSNode.entry "c.txt" ⟨false, false⟩ none [],
             FSNode.entry "c.log" ⟨false, false⟩ none []],
          FSNode.entry "d.txt" ⟨false, false⟩ none []])).count
      = specFileCountList [fun s => s.endsWith ".log"] "/r"
          [FSNode.entry "sub" ⟨true, false⟩ none
            [FSNode.entry "c.txt" ⟨false, false⟩ none [],
             FSNode.entry "c.log" ⟨false, false⟩ none []],
          FSNode.entry "d.txt" ⟨false, false⟩ none []] :=
  walk_count_matches_spec [fun s => s.endsWith ".log"] "/r"
    [FSNode.entry "sub" ⟨true, false⟩ none
      [FSNode.entry "c.txt" ⟨false, false⟩ none [],
       FSNode.entry "c.log" ⟨false, false⟩ none []],
     FSNode.entry "d.txt" ⟨false, false⟩ none []] okFileCb none
    (by simp [regularList, regularNode]) (fun _ _ => rfl)

/-- Claim C3 counterexample: with an array holding a raising pattern
followed by a pattern matching everything, `matchEx` returns `null`
and `match` returns false — the later matching pattern is not found,
although on its own it matches, so a failing pattern does not merely
drop out of the evaluation. -/
theorem pattern_failure_not_isolated_counterexample :
    matchAllPattern.test "src/a.ts" = Except.ok true ∧
    PatternMatcher.matchEx "src/a.ts" (some [matchAllPattern]) = some matchAllPattern ∧
    PatternMatcher.matchEx "src/a.ts" (some [raisingPattern, matchAllPattern]) = none ∧
    PatternMatcher.matchesAny "src/a.ts" (some [raisingPattern, matchAllPattern]) = false :=
  ⟨rfl, rfl, rfl, rfl⟩

/-- Claim C3, amended: an array element that is falsy or has no `test`
member is passed over without aborting, and evaluation continues with
the remaining patterns; but a pattern whose evaluation raises aborts
the whole evaluation — the exception is caught around the loop and
`matchEx` returns `null`, whatever comes later in the list. -/
theorem pattern_failure_aborts_evaluation :
    (∀ (text : String) (q : PMPattern) (qs : List PMPattern), q.hasTest = false →
        PatternMatcher.matchEx text (some (q :: qs))
          = PatternMatcher.matchEx text (some qs)) ∧
    (∀ (text : String) (pre post : List PMPattern) (p : PMPattern) (e : String),
        (∀ q ∈ pre, q.hasTest = false ∨ q.test text = Except.ok false) →
        p.hasTest = true → p.test text = Except.error e →
        PatternMatcher.matchEx text (some (pre ++ p :: post)) = none) := by
  constructor
  · intro text q qs hq
    simp [PatternMatcher.matchEx, matchExLoop, hq]
  · intro text pre post p e hpre hp he
    simp [PatternMatcher.matchEx, matchExLoop_error_of_prefix text p e hp he pre hpre post]

theorem pattern_failure_aborts_evaluation_witness :
    PatternMatcher.matchEx "x" (some (nullPattern :: [matchAllPattern]))
        = PatternMatcher.matchEx "x" (some [matchAllPattern]) ∧
    PatternMatcher.matchEx "x" (some ([nullPattern] ++ raisingPattern :: [matchAllPattern]))
        = none :=
  ⟨pattern_failure_aborts_evaluation.1 "x" nullPattern [matchAllPattern] rfl,
   pattern_failure_aborts_evaluation.2 "x" [nullPattern] [matchAllPattern] raisingPattern
     "bad pattern"
     (by
       intro q hq
       simp only [List.mem_singleton] at hq
       subst hq
       exact Or.inl rfl)
     rfl rfl⟩

/-- Claim C4 counterexample: with an error callback that itself raises,
a failing root listing makes the raised exception escape the top-level
`walk` call — `_handleError` does not guard the callback invocation,
so `walk` can reject. -/
theorem walk_never_rejects_counterexample :
    (walk "/missing" ⟨none, none⟩ okFileCb (some throwingErrCb)
        (Except.error "ENOENT")).exn = some "callback blew up" := by
  simp [walk, walkDirBody, handleError, throwingErrCb]

/-- Claim C4, amended: provided the supplied error callback never
raises (in particular whenever no callback is supplied and errors go
to the default console channel), no failure during traversal escapes
the top-level `walk` call: it always resolves to a count. -/
theorem walk_never_rejects (root : String) (settings : WalkSettings) (cb : FileCb)
    (ecb : ErrCb) (rootListing : Except String (List FSNode))
    (hben : benignErrCb ecb) :
    (walk root settings cb ecb rootListing).exn = none := by
  cases rootListing with
  | error e =>
      simpa [walk] using walkDirBody_exn_benign settings cb ecb root hben root (some e) []
  | ok l =>
      simpa [walk] using walkDirBody_exn_benign settings cb ecb root hben root none l

theorem walk_never_rejects_witness :
    (walk "/r" ⟨none, none⟩ failOnB none
        (Except.ok [FSNode.entry "b.txt" ⟨false, false⟩ none [],
          FSNode.statError "broken" "EPERM"])).exn = none :=
  walk_never_rejects "/r" ⟨none, none⟩ failOnB none
    (Except.ok [FSNode.entry "b.txt" ⟨false, false⟩ none [],
      FSNode.statError "broken" "EPERM"]) trivial

/-- Claim C5: a directory entry whose resolved path matches an
`excludeDirs` pattern is pruned by `_processDirectory`: the result is
empty — no count, no events (so no handler call and no error report,
even when listing that directory would fail), no recursion into its
children, and no exception. -/
theorem excluded_directory_pruned (settings : WalkSettings) (cb : FileCb) (ecb : ErrCb)
    (basePath targetPath name : String) (st : StatInfo) (listErr : Option String)
    (children : List FSNode) (hsym : st.isSymbolicLink = false)
    (hdir : st.isDirectory = true)
    (hmatch : dirExcluded settings (pathResolve targetPath name) = true) :
    processEntry settings cb ecb basePath targetPath
      (FSNode.entry name st listErr children) = ⟨0, [], none⟩ := by
  simp [processEntry, processDirectory, hsym, hdir, hmatch]

theorem excluded_directory_pruned_witness :
    processEntry ⟨some [fun s => s == "/r/node_modules"], none⟩ okFileCb none "/r" "/r"
        (FSNode.entry "node_modules" ⟨true, false⟩ (some "EACCES")
          [FSNode.entry "index.js" ⟨false, false⟩ none []]) = ⟨0, [], none⟩ :=
  excluded_directory_pruned ⟨some [fun s => s == "/r/node_modules"], none⟩ okFileCb none
    "/r" "/r" "node_modules" ⟨true, false⟩ (some "EACCES")
    [FSNode.entry "index.js" ⟨false, false⟩ none []] rfl rfl (by decide)

/-- Claim C6: in every traversal, every file-callback event carries a
relative path computed against the root of the top-level call — the
base path is threaded unchanged through the recursion, so the path is
never relative to the subdirectory being traversed. -/
theorem relative_paths_computed_from_root (root : String) (settings : WalkSettings)
    (cb : FileCb) (ecb : ErrCb) (rootListing : Except String (List FSNode)) :
    ((walk root settings cb ecb rootListing).events).all (Event.relativeToBase root)
      = true := by
  have hHE : ∀ msg e, ((handleError msg e ecb).1).all (Event.relativeToBase root)
      = true := by
    intro msg e
    cases ecb <;> simp [handleError, Event.relativeToBase]
  have hF : ∀ fp r,
      Event.relativeToBase root (Event.fileCb fp (pathRelative root fp) r) = true := by
    intro fp r
    simp [Event.relativeToBase]
  cases rootListing with
  | error e =>
      simpa [walk] using
        walkDirBody_events_all settings cb ecb root _ hHE hF root (some e) []
  | ok l =>
      simpa [walk] using
        walkDirBody_events_all settings cb ecb root _ hHE hF root none l

/-- Claim C7: when listing the root itself fails, `walk` resolves (for
any error callback that does not itself raise) with count 0, its trace
is exactly one event, that event is an error report (to the callback
when supplied, otherwise to the console channel), and the file
callback is never invoked. -/
theorem root_listing_failure_count_zero (root : String) (settings : WalkSettings)
    (cb : FileCb) (ecb : ErrCb) (e : String) (hben : benignErrCb ecb) :
    (walk root settings cb ecb (Except.error e)).count = 0 ∧
    (walk root settings cb ecb (Except.error e)).exn = none ∧
    ((walk root settings cb ecb (Except.error e)).events).length = 1 ∧
    ((walk root settings cb ecb (Except.error e)).events).all Event.isErrorReport
      = true ∧
    ((walk root settings cb ecb (Except.error e)).events).all
      (fun ev => !ev.isFileCbEvent) = true := by
  cases ecb with
  | none =>
      simp [walk, walkDirBody, handleError, Event.isErrorReport, Event.isFileCbEvent]
  | some f =>
      simp [walk, walkDirBody, handleError, Event.isErrorReport, Event.isFileCbEvent,
        hben e]

theorem root_listing_failure_count_zero_witness :
    (walk "/missing" ⟨none, none⟩ okFileCb none (Except.error "ENOENT")).count = 0 ∧
    (walk "/missing" ⟨none, none⟩ okFileCb none (Except.error "ENOENT")).exn = none ∧
    ((walk "/missing" ⟨none, none⟩ okFileCb none (Except.error "ENOENT")).events).length
      = 1 ∧
    ((walk "/missing" ⟨none, none⟩ okFileCb none
        (Except.error "ENOENT")).events).all Event.isErrorReport = true ∧
    ((walk "/missing" ⟨none, none⟩ okFileCb none (Except.error "ENOENT")).events).all
      (fun ev => !ev.isFileCbEvent) = true :=
  root_listing_failure_count_zero "/missing" ⟨none, none⟩ okFileCb none "ENOENT" trivial

/-- Claim C8: a non-excluded file whose handler fails is still counted
— the counter is incremented before the callback runs and is never
decremented — the failure is routed through `_handleError`, and (when
the error callback does not raise) the remaining entries are traversed
exactly as they would have been. -/
theorem handler_failure_still_counted (settings : WalkSettings) (cb : FileCb)
    (ecb : ErrCb) (basePath targetPath name : String) (st : StatInfo)
    (listErr : Option String) (children rest : List FSNode) (e : String)
    (hben : benignErrCb ecb) (hsym : st.isSymbolicLink = false)
    (hdir : st.isDirectory = false)
    (hext : extExcluded settings (pathResolve targetPath name) = false)
    (hcb : cb (pathRelative basePath (pathResolve targetPath name)) settings = some e) :
    walkEntries settings cb ecb basePath targetPath
        (FSNode.entry name st listErr children :: rest) =
      ⟨1 + (walkEntries settings cb ecb basePath targetPath rest).count,
        Event.fileCb (pathResolve targetPath name)
            (pathRelative basePath (pathResolve targetPath name)) (some e)
          :: (handleError ("ファイル処理エラー: " ++ pathResolve targetPath name) e ecb).1
          ++ (walkEntries settings cb ecb basePath targetPath rest).events,
        (walkEntries settings cb ecb basePath targetPath rest).exn⟩ := by
  have hhe2 : (handleError ("ファイル処理エラー: " ++ pathResolve targetPath name) e
      ecb).2 = none := handleError_exn_benign _ _ _ hben
  rw [walkEntries_cons]
  simp [processEntry, hsym, hdir, processFile, hext, hcb, hhe2, FSNode.name,
    Nat.add_comm]

theorem handler_failure_still_counted_witness :
    walkEntries ⟨none, none⟩ failOnB none "/r" "/r"
        (FSNode.entry "b.txt" ⟨false, false⟩ none []
          :: [FSNode.entry "c.txt" ⟨false, false⟩ none []]) =
      ⟨1 + (walkEntries ⟨none, none⟩ failOnB none "/r" "/r"
            [FSNode.entry "c.txt" ⟨false, false⟩ none []]).count,
        Event.fileCb (pathResolve "/r" "b.txt")
            (pathRelative "/r" (pathResolve "/r" "b.txt")) (some "handler failed")
          :: (handleError ("ファイル処理エラー: " ++ pathResolve "/r" "b.txt")
              "handler failed" none).1
          ++ (walkEntries ⟨none, none⟩ failOnB none "/r" "/r"
              [FSNode.entry "c.txt" ⟨false, false⟩ none []]).events,
        (walkEntries ⟨none, none⟩ failOnB none "/r" "/r"
            [FSNode.entry "c.txt" ⟨false, false⟩ none []]).exn⟩ :=
  handler_failure_still_counted ⟨none, none⟩ failOnB none "/r" "/r" "b.txt"
    ⟨false, false⟩ none [] [FSNode.entry "c.txt" ⟨false, false⟩ none []]
    "handler failed" trivial rfl rfl rfl (by decide)

/-- Claim C9: a successfully inspected entry that is neither a
directory nor a symbolic link — whatever special kind of file it is —
goes down the `_processFile` path: it is matched against `excludeExt`
and, when not excluded, counted and dispatched to the file callback;
and an entry reported as both directory and symbolic link is skipped,
the symbolic-link check coming first. -/
theorem nondirectory_entries_processed_as_files :
    (∀ (settings : WalkSettings) (cb : FileCb) (ecb : ErrCb)
        (basePath targetPath name : String) (st : StatInfo)
        (listErr : Option String) (children : List FSNode),
        st.isSymbolicLink = false → st.isDirectory = false →
        extExcluded settings (pathResolve targetPath name) = false →
        cb (pathRelative basePath (pathResolve targetPath name)) settings = none →
        processEntry settings cb ecb basePath targetPath
            (FSNode.entry name st listErr children) =
          ⟨1, [Event.fileCb (pathResolve targetPath name)
              (pathRelative basePath (pathResolve targetPath name)) none], none⟩) ∧
    (∀ (settings : WalkSettings) (cb : FileCb) (ecb : ErrCb)
        (basePath targetPath name : String) (st : StatInfo)
        (listErr : Option String) (children : List FSNode),
        st.isSymbolicLink = false → st.isDirectory = false →
        extExcluded settings (pathResolve targetPath name) = true →
        processEntry settings cb ecb basePath targetPath
          (FSNode.entry name st listErr children) = ⟨0, [], none⟩) ∧
    (∀ (settings : WalkSettings) (cb : FileCb) (ecb : ErrCb)
        (basePath targetPath name : String) (listErr : Option String)
        (children : List FSNode),
        processEntry settings cb ecb basePath targetPath
          (FSNode.entry name ⟨true, true⟩ listErr children) = ⟨0, [], none⟩) := by
  refine ⟨?_, ?_, ?_⟩
  · intro settings cb ecb basePath targetPath name st listErr children hs hd hx hc
    simp [processEntry, hs, hd, processFile, hx, hc]
  · intro settings cb ecb basePath targetPath name st listErr children hs hd hx
    simp [processEntry, hs, hd, processFile, hx]
  · intro settings cb ecb basePath targetPath name listErr children
    simp [processEntry]

theorem nondirectory_entries_processed_as_files_witness :
    processEntry ⟨none, none⟩ okFileCb none "/r" "/r"
        (FSNode.entry "unix.sock" ⟨false, false⟩ none []) =
      ⟨1, [Event.fileCb (pathResolve "/r" "unix.sock")
          (pathRelative "/r" (pathResolve "/r" "unix.sock")) none], none⟩ ∧
    processEntry ⟨none, none⟩ okFileCb none "/r" "/r"
        (FSNode.entry "both" ⟨true, true⟩ none []) = ⟨0, [], none⟩ :=
  ⟨nondirectory_entries_processed_as_files.1 ⟨none, none⟩ okFileCb none "/r" "/r"
      "unix.sock" ⟨false, false⟩ none [] rfl rfl rfl rfl,
   nondirectory_entries_processed_as_files.2.2 ⟨none, none⟩ okFileCb none "/r" "/r"
      "both" none []⟩

/-- Claim C10: an `_handleError` call with a callback hands that
callback the original error value, with no contextual message
attached; the context string is prepended only on the default console
channel used when no callback was supplied.  Consequently a traversal
run with a callback never writes to the console channel, and one run
without a callback never produces a callback event. -/
theorem error_callback_receives_original_error :
    (∀ (message error : String) (f : String → Option String),
        handleError message error (some f) = ([Event.errCb error (f error)], f error)) ∧
    (∀ message error : String,
        handleError message error none
          = ([Event.consoleError (message ++ ": " ++ error)], none)) ∧
    (∀ (root : String) (settings : WalkSettings) (cb : FileCb)
        (f : String → Option String) (rootListing : Except String (List FSNode)),
        ((walk root settings cb (some f) rootListing).events).all
          (fun ev => !ev.isConsoleEvent) = true) ∧
    (∀ (root : String) (settings : WalkSettings) (cb : FileCb)
        (rootListing : Except String (List FSNode)),
        ((walk root settings cb none rootListing).events).all
          (fun ev => !ev.isErrCbEvent) = true) := by
  refine ⟨fun _ _ _ => rfl, fun _ _ => rfl, ?_, ?_⟩
  · intro root settings cb f rootListing
    have hHE : ∀ msg e, ((handleError msg e (some f)).1).all
        (fun ev => !ev.isConsoleEvent) = true := by
      intro msg e
      simp [handleError, Event.isConsoleEvent]
    have hF : ∀ fp r, (fun ev => !ev.isConsoleEvent)
        (Event.fileCb fp (pathRelative root fp) r) = true := by
      intro fp r
      simp [Event.isConsoleEvent]
    cases rootListing with
    | error e =>
        simpa [walk] using
          walkDirBody_events_all settings cb (some f) root _ hHE hF root (some e) []
    | ok l =>
        simpa [walk] using
          walkDirBody_events_all settings cb (some f) root _ hHE hF root none l
  · intro root settings cb rootListing
    have hHE : ∀ msg e, ((handleError msg e none).1).all
        (fun ev => !ev.isErrCbEvent) = true := by
      intro msg e
      simp [handleError, Event.isErrCbEvent]
    have hF : ∀ fp r, (fun ev => !ev.isErrCbEvent)
        (Event.fileCb fp (pathRelative root fp) r) = true := by
      intro fp r
      simp [Event.isErrCbEvent]
    cases rootListing with
    | error e =>
        simpa [walk] using
          walkDirBody_events_all settings cb none root _ hHE hF root (some e) []
    | ok l =>
        simpa [walk] using
          walkDirBody_events_all settings cb none root _ hHE hF root none l
